import Mathlib

/-!
Verification of the beam-solver core of the `mechanik` repository.

The numerical routines of `mechanik_app/solver.py` (and the section builder
of `mechanik_app/materials.py`) are embedded shallowly over `List ℚ`:
floating-point arrays become lists of rationals, numpy's vectorised
operations become the corresponding structural list operations
(`zipWith`, `map`, cumulative sums), and the Python loop of
`integrate_deflection` becomes a structurally recursive pass over the
node list.  The spec's reference formulas (trapezoidal prefix sums,
reaction, shear, moment recurrences) are stated separately as indexed
`Finset.range` sums, and the development proves that the embedded code
realises those formulas at every mesh index.
-/

namespace Mechanik

/-- A point load as assembled by `loads.py`: (magnitude N, position m, label),
the triple consumed by `solver.shear_moment`. -/
structure PointLoad where
  magnitude : ℚ
  position : ℚ
  label : String
  deriving DecidableEq

/-- Embedding of `np.diff x`: successive differences, length `x.length - 1`. -/
def npDiff (x : List ℚ) : List ℚ :=
  List.zipWith (fun a b => b - a) x x.tail

/-- Embedding of `0.5 * (values[:-1] + values[1:])` from `cumulative_trapezoid`. -/
def npAvg (v : List ℚ) : List ℚ :=
  List.zipWith (fun a b => (1 / 2) * (a + b)) v v.tail

/-- Embedding of `np.cumsum` with an explicit running accumulator. -/
def npCumsum (acc : ℚ) : List ℚ → List ℚ
  | [] => []
  | a :: t => (acc + a) :: npCumsum (acc + a) t

/-- Embedding of `solver.cumulative_trapezoid(values, x)`:
`np.concatenate(([0.0], np.cumsum(avg * dx)))`. -/
def cumulative_trapezoid (values x : List ℚ) : List ℚ :=
  0 :: npCumsum 0 (List.zipWith (· * ·) (npAvg values) (npDiff x))

/-- Embedding of `np.trapz(y, x)`: the full-span trapezoidal integral. -/
def npTrapz (y x : List ℚ) : ℚ :=
  (List.zipWith (· * ·) (npAvg y) (npDiff x)).sum

/-- Embedding of `solver.shear_moment(x, q_profile, point_loads)`.
`dist_integral[-1]` is index `length - 1`; the boolean mask
`load * (x >= position)` becomes a pointwise indicator product; the
`for` loop accumulating `point_cumulative` becomes a `foldl`. -/
def shear_moment (x q_profile : List ℚ) (point_loads : List PointLoad) :
    List ℚ × List ℚ :=
  let dist_integral := cumulative_trapezoid q_profile x
  let total_distributed := dist_integral.getD (dist_integral.length - 1) 0
  let point_total := (point_loads.map (fun l => l.magnitude)).sum
  let reaction := total_distributed + point_total
  let point_cumulative := point_loads.foldl
    (fun acc l =>
      List.zipWith (· + ·) acc
        (x.map (fun xi => l.magnitude * (if l.position ≤ xi then 1 else 0))))
    (x.map (fun _ => (0 : ℚ)))
  let shear := List.zipWith (fun d p => reaction - d - p) dist_integral point_cumulative
  let moment_root := npTrapz (List.zipWith (· * ·) q_profile x) x
    + (point_loads.map (fun l => l.magnitude * l.position)).sum
  let moment := (0 :: npCumsum 0 (List.zipWith (· * ·) (npAvg shear) (npDiff x))).map
    (fun t => moment_root - t)
  (shear, moment)

/-- The spec's trapezoidal prefix sum of a sampled function `f` against the
mesh `x`, up to node `i`: `Σ_{k=1..i} 0.5 (f[k-1]+f[k]) (x[k]-x[k-1])`. -/
def trapzSum (f : ℕ → ℚ) (x : List ℚ) (i : ℕ) : ℚ :=
  ∑ k ∈ Finset.range i, (1 / 2) * (f k + f (k + 1)) * (x.getD (k + 1) 0 - x.getD k 0)

/-- The spec's `distIntegral` at node `i`: cumulative trapezoidal integral of
the distributed load, with `distIntegral[0] = 0`. -/
def specDistIntegral (q x : List ℚ) (i : ℕ) : ℚ :=
  trapzSum (fun k => q.getD k 0) x i

/-- The spec's cumulative point-load contribution at abscissa `xi`: the sum of
magnitudes of all point loads whose position is `≤ xi`. -/
def pointCumulativeAt (loads : List PointLoad) (xi : ℚ) : ℚ :=
  (loads.map (fun l => if l.position ≤ xi then l.magnitude else 0)).sum

/-- The spec's resultant reaction `R = distIntegral[last] + Σ magnitudes`. -/
def specReaction (q x : List ℚ) (loads : List PointLoad) : ℚ :=
  specDistIntegral q x (x.length - 1) + (loads.map (fun l => l.magnitude)).sum

/-- The spec's shear: `V(x_i) = R - distIntegral(x_i) - pointCumulative(x_i)`. -/
def specShear (q x : List ℚ) (loads : List PointLoad) (i : ℕ) : ℚ :=
  specReaction q x loads - specDistIntegral q x i
    - pointCumulativeAt loads (x.getD i 0)

/-- The spec's moment of the total load set about the near end:
`M0 = trapz(q·x, x) + Σ magnitude·position`. -/
def specM0 (q x : List ℚ) (loads : List PointLoad) : ℚ :=
  trapzSum (fun k => q.getD k 0 * x.getD k 0) x (x.length - 1)
    + (loads.map (fun l => l.magnitude * l.position)).sum

/-- The spec's moment field: `moment[i] = M0 - Σ_{k=1..i} 0.5 (V[k-1]+V[k]) Δx`. -/
def specMoment (q x : List ℚ) (loads : List PointLoad) (i : ℕ) : ℚ :=
  specM0 q x loads - trapzSum (specShear q x loads) x i

/- ### Indexing lemmas for the list combinators -/

lemma getD_zipWith (f : ℚ → ℚ → ℚ) (as bs : List ℚ) (i : ℕ)
    (ha : i < as.length) (hb : i < bs.length) :
    (List.zipWith f as bs).getD i 0 = f (as.getD i 0) (bs.getD i 0) := by
  simp [List.getD_eq_getElem?_getD, List.getElem?_zipWith,
    List.getElem?_eq_getElem, ha, hb]

lemma getD_tail (l : List ℚ) (i : ℕ) : l.tail.getD i 0 = l.getD (i + 1) 0 := by
  cases l <;> simp [List.getD_eq_getElem?_getD]

lemma getD_of_length_le (l : List ℚ) (i : ℕ) (h : l.length ≤ i) :
    l.getD i 0 = 0 := by
  simp [List.getD_eq_getElem?_getD, List.getElem?_eq_none h]

lemma getD_map_lt (f : ℚ → ℚ) (l : List ℚ) (i : ℕ) (h : i < l.length) :
    (l.map f).getD i 0 = f (l.getD i 0) := by
  simp [List.getD_eq_getElem?_getD, List.getElem?_map,
    List.getElem?_eq_getElem, h]

lemma getD_map_of_zero (f : ℚ → ℚ) (hf : f 0 = 0) (l : List ℚ) (i : ℕ) :
    (l.map f).getD i 0 = f (l.getD i 0) := by
  rcases lt_or_le i l.length with h | h
  · simp [List.getD_eq_getElem?_getD, List.getElem?_map,
      List.getElem?_eq_getElem, h]
  · rw [getD_of_length_le _ _ (by simpa using h), getD_of_length_le _ _ h, hf]

lemma npCumsum_getD (l : List ℚ) : ∀ (acc : ℚ) (i : ℕ), i < l.length →
    (npCumsum acc l).getD i 0 = acc + ∑ k ∈ Finset.range (i + 1), l.getD k 0 := by
  induction l with
  | nil => intro acc i h; simp at h
  | cons a t ih =>
    intro acc i h
    cases i with
    | zero => simp [npCumsum]
    | succ j =>
      have hj : j < t.length := by simpa using h
      have hsplit : ∑ k ∈ Finset.range (j + 1 + 1), (a :: t).getD k 0
          = (∑ k ∈ Finset.range (j + 1), t.getD k 0) + a := by
        rw [Finset.sum_range_succ']
        simp
      rw [npCumsum, List.getD_cons_succ, ih (acc + a) j hj, hsplit]
      ring

lemma length_npCumsum (l : List ℚ) : ∀ acc, (npCumsum acc l).length = l.length := by
  induction l with
  | nil => intro acc; rfl
  | cons a t ih => intro acc; simp [npCumsum, ih]

lemma length_npDiff (x : List ℚ) : (npDiff x).length = x.length - 1 := by
  simp [npDiff]

lemma length_npAvg (v : List ℚ) : (npAvg v).length = v.length - 1 := by
  simp [npAvg]

lemma npDiff_getD (x : List ℚ) (k : ℕ) (hk : k + 1 < x.length) :
    (npDiff x).getD k 0 = x.getD (k + 1) 0 - x.getD k 0 := by
  rw [npDiff, getD_zipWith _ _ _ _ (by omega) (by simp [List.length_tail]; omega),
    getD_tail]

lemma npAvg_getD (v : List ℚ) (k : ℕ) (hk : k + 1 < v.length) :
    (npAvg v).getD k 0 = (1 / 2) * (v.getD k 0 + v.getD (k + 1) 0) := by
  rw [npAvg, getD_zipWith _ _ _ _ (by omega) (by simp [List.length_tail]; omega),
    getD_tail]

lemma sum_eq_range_getD (l : List ℚ) :
    l.sum = ∑ k ∈ Finset.range l.length, l.getD k 0 := by
  induction l with
  | nil => simp
  | cons a t ih =>
    rw [List.sum_cons, ih, List.length_cons, Finset.sum_range_succ']
    simp [add_comm]

/- ### Characterisation of `cumulative_trapezoid` and `np.trapz` -/

lemma length_cumulative_trapezoid (q x : List ℚ) (hlen : q.length = x.length)
    (hx : 0 < x.length) :
    (cumulative_trapezoid q x).length = x.length := by
  simp [cumulative_trapezoid, length_npCumsum, length_npAvg, length_npDiff, hlen]
  omega

lemma cumulative_trapezoid_getD (q x : List ℚ) (hlen : q.length = x.length)
    (i : ℕ) (hi : i < x.length) :
    (cumulative_trapezoid q x).getD i 0 = specDistIntegral q x i := by
  cases i with
  | zero => simp [cumulative_trapezoid, specDistIntegral, trapzSum]
  | succ j =>
    have hlenp : (List.zipWith (· * ·) (npAvg q) (npDiff x)).length = x.length - 1 := by
      simp [length_npAvg, length_npDiff, hlen]
    rw [cumulative_trapezoid, List.getD_cons_succ,
      npCumsum_getD _ 0 j (by omega), specDistIntegral, trapzSum, zero_add]
    refine Finset.sum_congr rfl (fun k hk => ?_)
    have hk' : k < j + 1 := Finset.mem_range.mp hk
    have hkx : k + 1 < x.length := by omega
    rw [getD_zipWith _ _ _ _ (by simp [length_npAvg, hlen]; omega)
        (by simp [length_npDiff]; omega),
      npAvg_getD _ _ (by omega), npDiff_getD _ _ hkx]

lemma npTrapz_eq (y x : List ℚ) (hlen : y.length = x.length) :
    npTrapz y x = trapzSum (fun k => y.getD k 0) x (x.length - 1) := by
  rw [npTrapz, sum_eq_range_getD, trapzSum]
  have hlenp : (List.zipWith (· * ·) (npAvg y) (npDiff x)).length = x.length - 1 := by
    simp [length_npAvg, length_npDiff, hlen]
  rw [hlenp]
  refine Finset.sum_congr rfl (fun k hk => ?_)
  have hk' : k < x.length - 1 := Finset.mem_range.mp hk
  rw [getD_zipWith _ _ _ _ (by simp [length_npAvg, hlen]; omega)
      (by simp [length_npDiff]; omega),
    npAvg_getD _ _ (by omega), npDiff_getD _ _ (by omega)]

/- ### Characterisation of the point-load accumulation loop -/

lemma point_cumulative_length (x : List ℚ) (loads : List PointLoad) :
    ∀ acc : List ℚ, acc.length = x.length →
    (loads.foldl
      (fun acc l =>
        List.zipWith (· + ·) acc
          (x.map (fun xi => l.magnitude * (if l.position ≤ xi then 1 else 0))))
      acc).length = x.length := by
  induction loads with
  | nil => intro acc h; simpa using h
  | cons l ls ih =>
    intro acc h
    rw [List.foldl_cons]
    exact ih _ (by simp [h])

lemma point_cumulative_getD (x : List ℚ) (loads : List PointLoad) :
    ∀ acc : List ℚ, acc.length = x.length → ∀ i, i < x.length →
    (loads.foldl
      (fun acc l =>
        List.zipWith (· + ·) acc
          (x.map (fun xi => l.magnitude * (if l.position ≤ xi then 1 else 0))))
      acc).getD i 0
      = acc.getD i 0 + pointCumulativeAt loads (x.getD i 0) := by
  induction loads with
  | nil => intro acc h i hi; simp [pointCumulativeAt]
  | cons l ls ih =>
    intro acc h i hi
    rw [List.foldl_cons, ih _ (by simp [h]) i hi,
      getD_zipWith _ _ _ _ (by omega) (by simpa using hi),
      getD_map_lt _ x i hi]
    simp only [pointCumulativeAt, List.map_cons, List.sum_cons]
    by_cases hle : l.position ≤ x.getD i 0 <;> simp [hle] <;> ring

/- ### Characterisation of `shear_moment` -/

lemma shear_moment_fst_getD (x q : List ℚ) (loads : List PointLoad)
    (hlen : q.length = x.length) (i : ℕ) (hi : i < x.length) :
    (shear_moment x q loads).1.getD i 0 = specShear q x loads i := by
  have hx : 0 < x.length := by omega
  have hdl : (cumulative_trapezoid q x).length = x.length :=
    length_cumulative_trapezoid q x hlen hx
  have hpl : (x.map (fun _ => (0 : ℚ))).length = x.length := by simp
  rw [shear_moment]
  rw [getD_zipWith _ _ _ _ (by omega) (by rw [point_cumulative_length x loads _ hpl]; omega)]
  rw [point_cumulative_getD x loads _ hpl i hi,
    getD_map_of_zero _ rfl x i,
    cumulative_trapezoid_getD q x hlen i hi, hdl,
    cumulative_trapezoid_getD q x hlen (x.length - 1) (by omega)]
  rw [specShear, specReaction]
  ring

lemma shear_moment_fst_length (x q : List ℚ) (loads : List PointLoad)
    (hlen : q.length = x.length) (hx : 0 < x.length) :
    (shear_moment x q loads).1.length = x.length := by
  have hpl : (x.map (fun _ => (0 : ℚ))).length = x.length := by simp
  rw [shear_moment]
  simp only [List.length_zipWith,
    length_cumulative_trapezoid q x hlen hx,
    point_cumulative_length x loads _ hpl]
  omega

lemma trapzSum_congr (f g : ℕ → ℚ) (x : List ℚ) (i : ℕ)
    (h : ∀ k, k ≤ i → f k = g k) : trapzSum f x i = trapzSum g x i := by
  unfold trapzSum
  refine Finset.sum_congr rfl (fun k hk => ?_)
  have hk' : k < i := Finset.mem_range.mp hk
  rw [h k (by omega), h (k + 1) (by omega)]

lemma shear_moment_snd_getD (x q : List ℚ) (loads : List PointLoad)
    (hlen : q.length = x.length) (i : ℕ) (hi : i < x.length) :
    (shear_moment x q loads).2.getD i 0 = specMoment q x loads i := by
  have hx : 0 < x.length := by omega
  have hslen : (shear_moment x q loads).1.length = x.length :=
    shear_moment_fst_length x q loads hlen hx
  have hsnd : (shear_moment x q loads).2
      = (cumulative_trapezoid (shear_moment x q loads).1 x).map
        (fun t => npTrapz (List.zipWith (· * ·) q x) x
          + (loads.map (fun l => l.magnitude * l.position)).sum - t) := rfl
  rw [hsnd,
    getD_map_lt _ _ i (by rw [length_cumulative_trapezoid _ x hslen hx]; omega),
    cumulative_trapezoid_getD _ x hslen i hi]
  rw [specMoment, specM0]
  rw [npTrapz_eq _ x (by simp [hlen])]
  have hq : trapzSum (fun k => (List.zipWith (· * ·) q x).getD k 0) x (x.length - 1)
      = trapzSum (fun k => q.getD k 0 * x.getD k 0) x (x.length - 1) := by
    refine trapzSum_congr _ _ x _ (fun k hk => ?_)
    rcases lt_or_le k x.length with hkx | hkx
    · rw [getD_zipWith _ _ _ _ (by omega) (by omega)]
    · rw [getD_of_length_le _ _ (by simp [hlen]; omega),
        getD_of_length_le q _ (by omega), zero_mul]
  have hV : trapzSum (fun k => (shear_moment x q loads).1.getD k 0) x i
      = trapzSum (specShear q x loads) x i := by
    refine trapzSum_congr _ _ x _ (fun k hk => ?_)
    exact shear_moment_fst_getD x q loads hlen k (by omega)
  rw [specDistIntegral, hq, hV]

lemma shear_moment_snd_length (x q : List ℚ) (loads : List PointLoad)
    (hlen : q.length = x.length) (hx : 0 < x.length) :
    (shear_moment x q loads).2.length = x.length := by
  have hslen : (shear_moment x q loads).1.length = x.length :=
    shear_moment_fst_length x q loads hlen hx
  have hsnd : (shear_moment x q loads).2
      = (cumulative_trapezoid (shear_moment x q loads).1 x).map
        (fun t => npTrapz (List.zipWith (· * ·) q x) x
          + (loads.map (fun l => l.magnitude * l.position)).sum - t) := rfl
  rw [hsnd, List.length_map, length_cumulative_trapezoid _ x hslen hx]

/- ### Embedding of `integrate_deflection` -/

/-- One iteration step of the `for i in range(1, len(x))` loop of
`solver.integrate_deflection`, recursing over the remaining `(x, curvature)`
pairs while carrying the previous node's abscissa, curvature, slope and
deflection. -/
def defl_aux : ℚ → ℚ → ℚ → ℚ → List (ℚ × ℚ) → List (ℚ × ℚ)
  | _, _, _, _, [] => []
  | xp, kp, sp, wp, (xi, ki) :: rest =>
    let s := sp + (1 / 2) * (ki + kp) * (xi - xp)
    let w := wp + (1 / 2) * (s + sp) * (xi - xp)
    (s, w) :: defl_aux xi ki s w rest

/-- Embedding of `solver.integrate_deflection(x, moment, youngs, inertia)`:
`curvature = moment / (youngs * inertia)` and the loop filling the `slope`
and `deflection` arrays (initialised to zero at the first node), rendered as
a structural recursion over the node list. -/
def integrate_deflection (x moment : List ℚ) (youngs inertia : ℚ) :
    List ℚ × List ℚ × List ℚ :=
  let curvature := moment.map (fun m => m / (youngs * inertia))
  let sw : List (ℚ × ℚ) :=
    match x.zip curvature with
    | [] => []
    | p :: rest => (0, 0) :: defl_aux p.1 p.2 0 0 rest
  (curvature, sw.map Prod.fst, sw.map Prod.snd)

/-- The spec's curvature at node `i`: `κ(x_i) = M(x_i) / (E·I)`. -/
def specCurvature (moment : List ℚ) (youngs inertia : ℚ) (i : ℕ) : ℚ :=
  moment.getD i 0 / (youngs * inertia)

/-- The spec's rotation recurrence: `θ[0] = 0`,
`θ[i] = θ[i-1] + 0.5·(κ[i-1]+κ[i])·Δx`. -/
def specSlope (x : List ℚ) (kf : ℕ → ℚ) : ℕ → ℚ
  | 0 => 0
  | i + 1 => specSlope x kf i
      + (1 / 2) * (kf (i + 1) + kf i) * (x.getD (i + 1) 0 - x.getD i 0)

/-- The spec's deflection recurrence: `w[0] = 0`,
`w[i] = w[i-1] + 0.5·(θ[i-1]+θ[i])·Δx`. -/
def specDefl (x : List ℚ) (kf : ℕ → ℚ) : ℕ → ℚ
  | 0 => 0
  | i + 1 => specDefl x kf i
      + (1 / 2) * (specSlope x kf (i + 1) + specSlope x kf i)
        * (x.getD (i + 1) 0 - x.getD i 0)

lemma length_defl_aux (ps : List (ℚ × ℚ)) :
    ∀ xp kp sp wp, (defl_aux xp kp sp wp ps).length = ps.length := by
  induction ps with
  | nil => intro xp kp sp wp; rfl
  | cons p rest ih =>
    intro xp kp sp wp
    obtain ⟨xi, ki⟩ := p
    simp only [defl_aux, List.length_cons, ih]

lemma getElem_eq_getD (l : List ℚ) (i : ℕ) (h : i < l.length) :
    l[i] = l.getD i 0 := by
  simp [List.getD_eq_getElem?_getD, List.getElem?_eq_getElem, h]

lemma defl_aux_getD (x kl : List ℚ) (hlen : kl.length = x.length) :
    ∀ (i j : ℕ), j + 1 + i < x.length →
    (defl_aux (x.getD j 0) (kl.getD j 0)
        (specSlope x (fun k => kl.getD k 0) j) (specDefl x (fun k => kl.getD k 0) j)
        ((x.zip kl).drop (j + 1))).getD i (0, 0)
      = (specSlope x (fun k => kl.getD k 0) (j + 1 + i),
         specDefl x (fun k => kl.getD k 0) (j + 1 + i)) := by
  intro i
  induction i with
  | zero =>
    intro j hj
    have hz : j + 1 < (x.zip kl).length := by simp [List.length_zip]; omega
    rw [List.drop_eq_getElem_cons hz, List.getElem_zip,
      getElem_eq_getD x (j + 1) (by omega), getElem_eq_getD kl (j + 1) (by omega)]
    simp only [defl_aux, List.getD_cons_zero]
    rfl
  | succ t ih =>
    intro j hj
    have hz : j + 1 < (x.zip kl).length := by simp [List.length_zip]; omega
    rw [List.drop_eq_getElem_cons hz, List.getElem_zip,
      getElem_eq_getD x (j + 1) (by omega), getElem_eq_getD kl (j + 1) (by omega)]
    simp only [defl_aux, List.getD_cons_succ]
    have hs : specSlope x (fun k => kl.getD k 0) j
        + (1 / 2) * (kl.getD (j + 1) 0 + kl.getD j 0)
          * (x.getD (j + 1) 0 - x.getD j 0)
        = specSlope x (fun k => kl.getD k 0) (j + 1) := by
      simp [specSlope]
    have hw : specDefl x (fun k => kl.getD k 0) j
        + (1 / 2) * ((specSlope x (fun k => kl.getD k 0) j
            + (1 / 2) * (kl.getD (j + 1) 0 + kl.getD j 0)
              * (x.getD (j + 1) 0 - x.getD j 0))
          + specSlope x (fun k => kl.getD k 0) j)
          * (x.getD (j + 1) 0 - x.getD j 0)
        = specDefl x (fun k => kl.getD k 0) (j + 1) := by
      rw [hs]
      simp [specDefl]
    rw [hw, hs]
    have harith : j + 1 + (t + 1) = (j + 1) + 1 + t := by omega
    rw [harith]
    exact ih (j + 1) (by omega)

lemma getD_map_fst (l : List (ℚ × ℚ)) (i : ℕ) (h : i < l.length) :
    (l.map Prod.fst).getD i 0 = (l.getD i (0, 0)).1 := by
  simp [List.getD_eq_getElem?_getD, List.getElem?_map,
    List.getElem?_eq_getElem, h]

lemma getD_map_snd (l : List (ℚ × ℚ)) (i : ℕ) (h : i < l.length) :
    (l.map Prod.snd).getD i 0 = (l.getD i (0, 0)).2 := by
  simp [List.getD_eq_getElem?_getD, List.getElem?_map,
    List.getElem?_eq_getElem, h]

lemma integrate_deflection_spec (x moment : List ℚ) (youngs inertia : ℚ)
    (hlen : moment.length = x.length) (i : ℕ) (hi : i < x.length) :
    (integrate_deflection x moment youngs inertia).1.getD i 0
        = specCurvature moment youngs inertia i
      ∧ (integrate_deflection x moment youngs inertia).2.1.getD i 0
        = specSlope x (specCurvature moment youngs inertia) i
      ∧ (integrate_deflection x moment youngs inertia).2.2.getD i 0
        = specDefl x (specCurvature moment youngs inertia) i := by
  have hkf : (fun k => (moment.map (fun m => m / (youngs * inertia))).getD k 0)
      = specCurvature moment youngs inertia := by
    funext k
    rw [getD_map_of_zero (fun m => m / (youngs * inertia)) (zero_div _) moment k]
    rfl
  refine ⟨?_, ?_⟩
  · have h1 : (integrate_deflection x moment youngs inertia).1
        = moment.map (fun m => m / (youngs * inertia)) := rfl
    rw [h1, getD_map_of_zero (fun m => m / (youngs * inertia)) (zero_div _) moment i]
    rfl
  cases x with
  | nil => simp at hi
  | cons x0 xt =>
    cases moment with
    | nil => simp at hlen
    | cons m0 mt =>
      have hlen' : mt.length = xt.length := by simpa using hlen
      set X : List ℚ := x0 :: xt with hX
      set KL : List ℚ := (m0 :: mt).map (fun m => m / (youngs * inertia)) with hKL
      have hKLlen : KL.length = X.length := by simp [hKL, hX, hlen']
      have hsw : (integrate_deflection X (m0 :: mt) youngs inertia).2.1
            = ((0, 0) :: defl_aux x0 (m0 / (youngs * inertia)) 0 0
                (xt.zip (mt.map (fun m => m / (youngs * inertia))))).map Prod.fst
          ∧ (integrate_deflection X (m0 :: mt) youngs inertia).2.2
            = ((0, 0) :: defl_aux x0 (m0 / (youngs * inertia)) 0 0
                (xt.zip (mt.map (fun m => m / (youngs * inertia))))).map Prod.snd := by
        constructor <;> rfl
      have hswlen : ((0, 0) :: defl_aux x0 (m0 / (youngs * inertia)) 0 0
          (xt.zip (mt.map (fun m => m / (youngs * inertia))))).length = X.length := by
        simp [length_defl_aux, List.length_zip, hX, hlen']
      have hget : ∀ t, t < X.length →
          ((0, 0) :: defl_aux x0 (m0 / (youngs * inertia)) 0 0
              (xt.zip (mt.map (fun m => m / (youngs * inertia))))).getD t (0, 0)
          = (specSlope X (fun k => KL.getD k 0) t, specDefl X (fun k => KL.getD k 0) t) := by
        intro t ht
        cases t with
        | zero => simp [specSlope, specDefl]
        | succ u =>
          rw [List.getD_cons_succ]
          have hdrop : (X.zip KL).drop 1
              = xt.zip (mt.map (fun m => m / (youngs * inertia))) := by
            simp [hX, hKL]
          have hseed : X.getD 0 0 = x0 := rfl
          have hseedk : KL.getD 0 0 = m0 / (youngs * inertia) := rfl
          have := defl_aux_getD X KL hKLlen u 0 (by omega)
          rw [hdrop, hseed, hseedk] at this
          have hz : specSlope X (fun k => KL.getD k 0) 0 = 0 := rfl
          have hz' : specDefl X (fun k => KL.getD k 0) 0 = 0 := rfl
          rw [hz, hz'] at this
          rw [this]
          have : 0 + 1 + u = u + 1 := by omega
          rw [this]
      constructor
      · rw [hsw.1, getD_map_fst _ _ (by rw [hswlen]; exact hi), hget i hi]
        rw [← hkf]
      · rw [hsw.2, getD_map_snd _ _ (by rw [hswlen]; exact hi), hget i hi]
        rw [← hkf]

/- ### Embedding of `np.linspace`, `discretize`, `stress_field` -/

/-- Embedding of `np.linspace(a, b, n)`: `n` equally spaced samples from `a`
to `b` inclusive (`[a]` for `n = 1`, empty for `n = 0`). -/
def np_linspace (a b : ℚ) (n : ℕ) : List ℚ :=
  if n = 0 then []
  else if n = 1 then [a]
  else (List.range n).map (fun i : ℕ => a + (i : ℚ) * ((b - a) / ((n : ℚ) - 1)))

/-- Embedding of `solver.discretize(length, nodes)`:
`np.linspace(0.0, length, nodes)` with no input validation. -/
def discretize (length : ℚ) (nodes : ℕ) : List ℚ :=
  np_linspace 0 length nodes

/-- Embedding of `solver.stress_field(moment, section_height, inertia, points)`
(`points` defaults to 120 at the call sites).  The degenerate guard returns a
single-element height grid and one all-zero stress row; otherwise the height
grid is `linspace(-h/2, h/2, points)` (converted to mm) and the stress matrix
is `outer(y, moment) / inertia / 1e6`. -/
def stress_field (moment : List ℚ) (section_height inertia : ℚ) (points : ℕ) :
    List ℚ × List (List ℚ) :=
  if section_height ≤ 0 ∨ inertia ≤ 0 then
    ([0], [moment.map (fun _ => 0)])
  else
    let y := np_linspace (-(section_height / 2)) (section_height / 2) points
    let stress := y.map (fun yi => moment.map (fun m => yi * m / inertia))
    (y.map (fun v => v * 1000),
     stress.map (fun row => row.map (fun s => s / 1000000)))

/-- The spec's height-grid sample `i` (in metres): the `i`-th of `n` equally
spaced points from `-h/2` to `h/2`. -/
def grid_height (h : ℚ) (n i : ℕ) : ℚ :=
  -(h / 2) + (i : ℚ) * (h / ((n : ℚ) - 1))

/- ### Embedding of `materials.build_section` -/

/-- The cross-section record of `materials.Section`, SI units, with the raw
millimetre dimensions kept as a lookup function. -/
structure Section where
  name : String
  area : ℚ
  inertia : ℚ
  height : ℚ
  shape : String
  dimensions : String → ℚ

/-- The float constant `np.pi`, read as the rational value of its decimal
literal (the development never depends on its numeric value). -/
def npPi : ℚ := 3.141592653589793

/-- Embedding of `materials.build_section(shape, dims)`; the
`raise ValueError("未知截面类型")` branch becomes `Except.error`. -/
def build_section (shape : String) (dims : String → ℚ) : Except String Section :=
  let mm_to_m : ℚ := 1 / 1000
  if shape = "工字钢" then
    let h := dims "总高" * mm_to_m
    let bf := dims "翼缘宽" * mm_to_m
    let tf := dims "翼缘厚" * mm_to_m
    let tw := dims "腹板厚" * mm_to_m
    let area := 2 * bf * tf + (h - 2 * tf) * tw
    let inertia := (bf * h ^ 3 - (bf - tw) * (h - 2 * tf) ^ 3) / 12
    Except.ok ⟨"工字钢", area, inertia, h, "工字钢", dims⟩
  else if shape = "矩形钢" then
    let b := dims "宽" * mm_to_m
    let h := dims "高" * mm_to_m
    Except.ok ⟨"矩形钢", b * h, b * h ^ 3 / 12, h, "矩形钢", dims⟩
  else if shape = "方钢管" then
    let b := dims "外宽" * mm_to_m
    let t := dims "壁厚" * mm_to_m
    Except.ok ⟨"方钢管", b ^ 2 - (b - 2 * t) ^ 2, (b ^ 4 - (b - 2 * t) ^ 4) / 12,
      b, "方钢管", dims⟩
  else if shape = "圆钢" then
    let d := dims "直径" * mm_to_m
    Except.ok ⟨"圆钢", npPi * d ^ 2 / 4, npPi * d ^ 4 / 64, d, "圆钢", dims⟩
  else Except.error "未知截面类型"

/- ### The Timoshenko-aware deflection integrator -/

/-- Modelled from the spec: the Timoshenko-aware deflection integrator.  Its
body is missing from the available solver source — `streamlit_app.main` calls
`integrate_deflection` with shear, area, shear modulus, correction factor and
theory arguments and unpacks four arrays, while `solver.py` contains only the
Euler-Bernoulli integrator (spec §9 records the same gap).  Spec §4.4 defines
the target behaviour: shear strain `γ(x) = κ_shear·V(x)/(G·A)`, shear
deflection the cumulative trapezoidal integral of `γ` with `w_shear(0) = 0`,
final deflection = bending deflection + shear deflection, curvature and
rotation as in the bending case, and the shear term added only when the
Timoshenko theory is selected. -/
def integrate_deflection_full (x moment shear : List ℚ)
    (youngs inertia area shear_modulus shear_coeff : ℚ) (theory : String) :
    List ℚ × List ℚ × List ℚ × List ℚ :=
  let base := integrate_deflection x moment youngs inertia
  let gamma := shear.map (fun v => shear_coeff * v / (shear_modulus * area))
  let w_shear := cumulative_trapezoid gamma x
  let w_total := if theory = "Timoshenko"
    then List.zipWith (· + ·) base.2.2 w_shear
    else base.2.2
  (base.1, base.2.1, w_total, gamma)

/- ### Further indexing lemmas -/

lemma getD_map_general {α β : Type} (f : α → β) (l : List α) (i : ℕ)
    (d : α) (d' : β) (h : i < l.length) :
    (l.map f).getD i d' = f (l.getD i d) := by
  simp [List.getD_eq_getElem?_getD, List.getElem?_map,
    List.getElem?_eq_getElem, h]

lemma getD_map_range (f : ℕ → ℚ) (n i : ℕ) (h : i < n) :
    ((List.range n).map f).getD i 0 = f i := by
  simp [List.getD_eq_getElem?_getD, List.getElem?_map, List.getElem?_range, h]

lemma map_const_eq_replicate (l : List ℚ) :
    l.map (fun _ => (0 : ℚ)) = List.replicate l.length 0 := by
  induction l with
  | nil => rfl
  | cons a t ih => simp [ih, List.replicate_succ]

lemma np_linspace_length (a b : ℚ) (n : ℕ) : (np_linspace a b n).length = n := by
  unfold np_linspace
  by_cases h0 : n = 0
  · simp [h0]
  · by_cases h1 : n = 1
    · simp [h0, h1]
    · simp [h0, h1]

lemma np_linspace_getD (a b : ℚ) (n i : ℕ) (hn : 2 ≤ n) (hi : i < n) :
    (np_linspace a b n).getD i 0 = a + (i : ℚ) * ((b - a) / ((n : ℚ) - 1)) := by
  rw [np_linspace, if_neg (by omega), if_neg (by omega), getD_map_range _ n i hi]

lemma linspace_grid_height (h : ℚ) (n i : ℕ) (hn : 2 ≤ n) (hi : i < n) :
    (np_linspace (-(h / 2)) (h / 2) n).getD i 0 = grid_height h n i := by
  rw [np_linspace_getD _ _ n i hn hi, grid_height]
  ring

lemma cast_sub_one_ne_zero (n : ℕ) (hn : 2 ≤ n) : ((n : ℚ) - 1) ≠ 0 := by
  have h2 : (2 : ℚ) ≤ (n : ℚ) := by exact_mod_cast hn
  linarith

lemma grid_height_symm (h : ℚ) (n i : ℕ) (hn : 2 ≤ n) (hi : i < n) :
    grid_height h n i + grid_height h n (n - 1 - i) = 0 := by
  have hd := cast_sub_one_ne_zero n hn
  have hcast : ((n - 1 - i : ℕ) : ℚ) = (n : ℚ) - 1 - (i : ℚ) := by
    rw [Nat.sub_sub, Nat.cast_sub (by omega : 1 + i ≤ n)]
    push_cast
    ring
  rw [grid_height, grid_height, hcast]
  field_simp
  ring

lemma grid_height_zero (h : ℚ) (n : ℕ) : grid_height h n 0 = -(h / 2) := by
  simp [grid_height]

lemma grid_height_last (h : ℚ) (n : ℕ) (hn : 2 ≤ n) :
    grid_height h n (n - 1) = h / 2 := by
  have hd := cast_sub_one_ne_zero n hn
  rw [grid_height, Nat.cast_sub (by omega : 1 ≤ n)]
  push_cast
  field_simp
  ring

/- ### Zero and additivity lemmas for the spec formulas -/

lemma trapzSum_zero (f : ℕ → ℚ) (x : List ℚ) (i : ℕ) (h : ∀ k, f k = 0) :
    trapzSum f x i = 0 := by
  unfold trapzSum
  refine Finset.sum_eq_zero (fun k _ => ?_)
  rw [h k, h (k + 1)]
  ring

lemma trapzSum_add (f g : ℕ → ℚ) (x : List ℚ) (i : ℕ) :
    trapzSum (fun k => f k + g k) x i = trapzSum f x i + trapzSum g x i := by
  unfold trapzSum
  rw [← Finset.sum_add_distrib]
  exact Finset.sum_congr rfl (fun k _ => by ring)

lemma getD_zipWith_add (qA qB : List ℚ) (h : qA.length = qB.length) (k : ℕ) :
    (List.zipWith (· + ·) qA qB).getD k 0 = qA.getD k 0 + qB.getD k 0 := by
  rcases lt_or_le k qA.length with hk | hk
  · exact getD_zipWith _ _ _ _ hk (by omega)
  · rw [getD_of_length_le _ _ (by simp [List.length_zipWith]; omega),
      getD_of_length_le _ _ hk, getD_of_length_le _ _ (by omega)]
    ring

lemma specDistIntegral_add (qA qB x : List ℚ) (h : qA.length = qB.length) (i : ℕ) :
    specDistIntegral (List.zipWith (· + ·) qA qB) x i
      = specDistIntegral qA x i + specDistIntegral qB x i := by
  unfold specDistIntegral
  rw [← trapzSum_add]
  exact trapzSum_congr _ _ x i (fun k _ => getD_zipWith_add qA qB h k)

lemma pointCumulativeAt_append (pA pB : List PointLoad) (xi : ℚ) :
    pointCumulativeAt (pA ++ pB) xi
      = pointCumulativeAt pA xi + pointCumulativeAt pB xi := by
  simp [pointCumulativeAt]

lemma specReaction_add (qA qB x : List ℚ) (pA pB : List PointLoad)
    (h : qA.length = qB.length) :
    specReaction (List.zipWith (· + ·) qA qB) x (pA ++ pB)
      = specReaction qA x pA + specReaction qB x pB := by
  unfold specReaction
  rw [specDistIntegral_add qA qB x h, List.map_append, List.sum_append]
  ring

lemma specShear_add (qA qB x : List ℚ) (pA pB : List PointLoad)
    (h : qA.length = qB.length) (i : ℕ) :
    specShear (List.zipWith (· + ·) qA qB) x (pA ++ pB) i
      = specShear qA x pA i + specShear qB x pB i := by
  unfold specShear
  rw [specReaction_add qA qB x pA pB h, specDistIntegral_add qA qB x h,
    pointCumulativeAt_append]
  ring

lemma specM0_add (qA qB x : List ℚ) (pA pB : List PointLoad)
    (h : qA.length = qB.length) :
    specM0 (List.zipWith (· + ·) qA qB) x (pA ++ pB)
      = specM0 qA x pA + specM0 qB x pB := by
  unfold specM0
  have hsum : trapzSum (fun k => (List.zipWith (· + ·) qA qB).getD k 0 * x.getD k 0) x
        (x.length - 1)
      = trapzSum (fun k => qA.getD k 0 * x.getD k 0 + qB.getD k 0 * x.getD k 0) x
        (x.length - 1) :=
    trapzSum_congr _ _ x _ (fun k _ => by rw [getD_zipWith_add qA qB h k]; ring)
  rw [hsum, trapzSum_add, List.map_append, List.sum_append]
  ring

lemma specMoment_add (qA qB x : List ℚ) (pA pB : List PointLoad)
    (h : qA.length = qB.length) (i : ℕ) :
    specMoment (List.zipWith (· + ·) qA qB) x (pA ++ pB) i
      = specMoment qA x pA i + specMoment qB x pB i := by
  unfold specMoment
  rw [specM0_add qA qB x pA pB h]
  have hsum : trapzSum (specShear (List.zipWith (· + ·) qA qB) x (pA ++ pB)) x i
      = trapzSum (fun k => specShear qA x pA k + specShear qB x pB k) x i :=
    trapzSum_congr _ _ x i (fun k _ => specShear_add qA qB x pA pB h k)
  rw [hsum, trapzSum_add]
  ring

lemma specSlope_zero (x : List ℚ) (f : ℕ → ℚ) (h : ∀ k, f k = 0) (i : ℕ) :
    specSlope x f i = 0 := by
  induction i with
  | zero => rfl
  | succ j ih =>
    simp only [specSlope]
    rw [ih, h j, h (j + 1)]
    ring

lemma specDefl_zero (x : List ℚ) (f : ℕ → ℚ) (h : ∀ k, f k = 0) (i : ℕ) :
    specDefl x f i = 0 := by
  induction i with
  | zero => rfl
  | succ j ih =>
    simp only [specDefl]
    rw [ih, specSlope_zero x f h j, specSlope_zero x f h (j + 1)]
    ring

lemma specSlope_add (x : List ℚ) (f g fg : ℕ → ℚ) (h : ∀ k, fg k = f k + g k) (i : ℕ) :
    specSlope x fg i = specSlope x f i + specSlope x g i := by
  induction i with
  | zero => simp [specSlope]
  | succ j ih =>
    simp only [specSlope]
    rw [ih, h j, h (j + 1)]
    ring

lemma specDefl_add (x : List ℚ) (f g fg : ℕ → ℚ) (h : ∀ k, fg k = f k + g k) (i : ℕ) :
    specDefl x fg i = specDefl x f i + specDefl x g i := by
  induction i with
  | zero => simp [specDefl]
  | succ j ih =>
    simp only [specDefl]
    rw [ih, specSlope_add x f g fg h j, specSlope_add x f g fg h (j + 1)]
    ring

lemma integrate_deflection_slope_length (x moment : List ℚ) (youngs inertia : ℚ)
    (hlen : moment.length = x.length) :
    (integrate_deflection x moment youngs inertia).2.1.length = x.length := by
  cases x with
  | nil =>
    cases moment with
    | nil => rfl
    | cons m mt => simp at hlen
  | cons x0 xt =>
    cases moment with
    | nil => simp at hlen
    | cons m0 mt =>
      have hlen2 : mt.length = xt.length := by simpa using hlen
      have hrfl : (integrate_deflection (x0 :: xt) (m0 :: mt) youngs inertia).2.1
          = ((0, 0) :: defl_aux x0 (m0 / (youngs * inertia)) 0 0
              (xt.zip (mt.map (fun m => m / (youngs * inertia))))).map Prod.fst := rfl
      rw [hrfl]
      simp [length_defl_aux, List.length_zip, hlen2]

lemma integrate_deflection_defl_length (x moment : List ℚ) (youngs inertia : ℚ)
    (hlen : moment.length = x.length) :
    (integrate_deflection x moment youngs inertia).2.2.length = x.length := by
  cases x with
  | nil =>
    cases moment with
    | nil => rfl
    | cons m mt => simp at hlen
  | cons x0 xt =>
    cases moment with
    | nil => simp at hlen
    | cons m0 mt =>
      have hlen2 : mt.length = xt.length := by simpa using hlen
      have hrfl : (integrate_deflection (x0 :: xt) (m0 :: mt) youngs inertia).2.2
          = ((0, 0) :: defl_aux x0 (m0 / (youngs * inertia)) 0 0
              (xt.zip (mt.map (fun m => m / (youngs * inertia))))).map Prod.snd := rfl
      rw [hrfl]
      simp [length_defl_aux, List.length_zip, hlen2]

lemma getD_strictMono (x : List ℚ)
    (hmono : ∀ i, i < x.length - 1 → x.getD i 0 < x.getD (i + 1) 0) :
    ∀ a b, a < b → b < x.length → x.getD a 0 < x.getD b 0 := by
  intro a b
  induction b with
  | zero => intro h _; omega
  | succ c ih =>
    intro hab hb
    rcases Nat.lt_succ_iff_lt_or_eq.mp hab with h | h
    · exact lt_trans (ih h (by omega)) (hmono c (by omega))
    · subst h
      exact hmono a (by omega)

/- ### The claims -/

/-- C1: for every strictly increasing mesh of at least two nodes, every
distributed-load array sampled on it and every point-load list,
`shear_moment` realises the spec's reference algorithm at every node `i`:
the shear is `R - distIntegral(x_i) - pointCumulative(x_i)` and the moment
is `M0` minus the cumulative trapezoidal integral of the shear, with
`distIntegral`, `R` and `M0` as the spec defines them. -/
theorem claim_C1 (x q : List ℚ) (loads : List PointLoad) (i : ℕ)
    (hn : 2 ≤ x.length) (hq : q.length = x.length)
    (hmono : ∀ k, k < x.length - 1 → x.getD k 0 < x.getD (k + 1) 0)
    (hi : i < x.length) :
    (shear_moment x q loads).1.getD i 0 = specShear q x loads i
      ∧ (shear_moment x q loads).2.getD i 0 = specMoment q x loads i :=
  ⟨shear_moment_fst_getD x q loads hq i hi,
   shear_moment_snd_getD x q loads hq i hi⟩

/-- Witness for C1: a three-node mesh, unit distributed load, one point load. -/
theorem claim_C1_witness :
    (shear_moment [0, 1, 2] [1, 1, 1] [⟨5, 1, "P"⟩]).1.getD 1 0
        = specShear [1, 1, 1] [0, 1, 2] [⟨5, 1, "P"⟩] 1
      ∧ (shear_moment [0, 1, 2] [1, 1, 1] [⟨5, 1, "P"⟩]).2.getD 1 0
        = specMoment [1, 1, 1] [0, 1, 2] [⟨5, 1, "P"⟩] 1 :=
  claim_C1 [0, 1, 2] [1, 1, 1] [⟨5, 1, "P"⟩] 1 (by decide) rfl
    (by intro k hk; simp at hk; interval_cases k <;> norm_num) (by decide)

/-- C2: `integrate_deflection` computes curvature `M/(E·I)` and realises the
spec's rotation and deflection recurrences, with `θ(0) = 0`, `w(0) = 0`,
`θ[i] = θ[i-1] + 0.5·(κ[i-1]+κ[i])·Δx` and
`w[i] = w[i-1] + 0.5·(θ[i-1]+θ[i])·Δx`, at every node. -/
theorem claim_C2 (x moment : List ℚ) (youngs inertia : ℚ) (i : ℕ)
    (hlen : moment.length = x.length) (hE : 0 < youngs) (hI : 0 < inertia)
    (hi : i < x.length) :
    (integrate_deflection x moment youngs inertia).1.getD i 0
        = specCurvature moment youngs inertia i
      ∧ (integrate_deflection x moment youngs inertia).2.1.getD i 0
        = specSlope x (specCurvature moment youngs inertia) i
      ∧ (integrate_deflection x moment youngs inertia).2.2.getD i 0
        = specDefl x (specCurvature moment youngs inertia) i :=
  integrate_deflection_spec x moment youngs inertia hlen i hi

/-- Witness for C2: a two-node mesh with a nonzero moment field. -/
theorem claim_C2_witness :
    (integrate_deflection [0, 1] [2, 4] 1 2).1.getD 1 0
        = specCurvature [2, 4] 1 2 1
      ∧ (integrate_deflection [0, 1] [2, 4] 1 2).2.1.getD 1 0
        = specSlope [0, 1] (specCurvature [2, 4] 1 2) 1
      ∧ (integrate_deflection [0, 1] [2, 4] 1 2).2.2.getD 1 0
        = specDefl [0, 1] (specCurvature [2, 4] 1 2) 1 :=
  claim_C2 [0, 1] [2, 4] 1 2 1 rfl (by norm_num) (by norm_num) (by decide)

/-- C3: with Timoshenko theory selected, the deflection integrator computes
shear strain `γ = κ_shear·V/(G·A)`, returns the bending curvature and
rotation unchanged, and returns as final deflection the bending deflection
plus the cumulative trapezoidal integral of `γ` (zero at the first node). -/
theorem claim_C3 (x moment shear : List ℚ)
    (youngs inertia area shear_modulus shear_coeff : ℚ) (i : ℕ)
    (hm : moment.length = x.length) (hs : shear.length = x.length)
    (hi : i < x.length) :
    (integrate_deflection_full x moment shear youngs inertia area shear_modulus
        shear_coeff "Timoshenko").1
        = (integrate_deflection x moment youngs inertia).1
      ∧ (integrate_deflection_full x moment shear youngs inertia area shear_modulus
          shear_coeff "Timoshenko").2.1
        = (integrate_deflection x moment youngs inertia).2.1
      ∧ (integrate_deflection_full x moment shear youngs inertia area shear_modulus
          shear_coeff "Timoshenko").2.2.2.getD i 0
        = shear_coeff * shear.getD i 0 / (shear_modulus * area)
      ∧ (integrate_deflection_full x moment shear youngs inertia area shear_modulus
          shear_coeff "Timoshenko").2.2.1.getD i 0
        = (integrate_deflection x moment youngs inertia).2.2.getD i 0
          + trapzSum (fun k => shear_coeff * shear.getD k 0 / (shear_modulus * area))
              x i := by
  have hx : 0 < x.length := by omega
  have hgamma : ∀ k, ((shear.map
        (fun v => shear_coeff * v / (shear_modulus * area))).getD k 0)
      = shear_coeff * shear.getD k 0 / (shear_modulus * area) := fun k =>
    getD_map_of_zero (fun v => shear_coeff * v / (shear_modulus * area))
      (by simp) shear k
  have hglen : (shear.map
      (fun v => shear_coeff * v / (shear_modulus * area))).length = x.length := by
    simp [hs]
  have hblen : (integrate_deflection x moment youngs inertia).2.2.length = x.length :=
    integrate_deflection_defl_length x moment youngs inertia hm
  have hw : (integrate_deflection_full x moment shear youngs inertia area
        shear_modulus shear_coeff "Timoshenko").2.2.1
      = List.zipWith (· + ·) (integrate_deflection x moment youngs inertia).2.2
        (cumulative_trapezoid
          (shear.map (fun v => shear_coeff * v / (shear_modulus * area))) x) := by
    rw [integrate_deflection_full, if_pos rfl]
  refine ⟨rfl, rfl, hgamma i, ?_⟩
  rw [hw, getD_zipWith_add _ _
      (by rw [hblen, length_cumulative_trapezoid _ x hglen hx]) i,
    cumulative_trapezoid_getD _ x hglen i hi]
  have hts : specDistIntegral
        (shear.map (fun v => shear_coeff * v / (shear_modulus * area))) x i
      = trapzSum (fun k => shear_coeff * shear.getD k 0 / (shear_modulus * area)) x i := by
    unfold specDistIntegral
    exact trapzSum_congr _ _ x i (fun k _ => hgamma k)
  rw [hts]

/-- Witness for C3: a two-node mesh with a constant shear field. -/
theorem claim_C3_witness :
    (integrate_deflection_full [0, 1] [0, 0] [2, 2] 1 1 1 1 3 "Timoshenko").1
        = (integrate_deflection [0, 1] [0, 0] 1 1).1
      ∧ (integrate_deflection_full [0, 1] [0, 0] [2, 2] 1 1 1 1 3 "Timoshenko").2.1
        = (integrate_deflection [0, 1] [0, 0] 1 1).2.1
      ∧ (integrate_deflection_full [0, 1] [0, 0] [2, 2] 1 1 1 1 3 "Timoshenko").2.2.2.getD 1 0
        = 3 * ([2, 2] : List ℚ).getD 1 0 / (1 * 1)
      ∧ (integrate_deflection_full [0, 1] [0, 0] [2, 2] 1 1 1 1 3 "Timoshenko").2.2.1.getD 1 0
        = (integrate_deflection [0, 1] [0, 0] 1 1).2.2.getD 1 0
          + trapzSum (fun k => 3 * ([2, 2] : List ℚ).getD k 0 / (1 * 1)) [0, 1] 1 :=
  claim_C3 [0, 1] [0, 0] [2, 2] 1 1 1 1 3 1 rfl rfl (by decide)

/-- C4: with an all-zero distributed load and no point loads, shear, moment,
rotation and deflection are all zero at every mesh point. -/
theorem claim_C4 (x q : List ℚ) (youngs inertia : ℚ) (i : ℕ)
    (hq : q.length = x.length) (hzero : ∀ k, q.getD k 0 = 0)
    (hi : i < x.length) :
    (shear_moment x q []).1.getD i 0 = 0
      ∧ (shear_moment x q []).2.getD i 0 = 0
      ∧ (integrate_deflection x (shear_moment x q []).2 youngs inertia).2.1.getD i 0 = 0
      ∧ (integrate_deflection x (shear_moment x q []).2 youngs inertia).2.2.getD i 0
          = 0 := by
  have hx : 0 < x.length := by omega
  have hshear0 : ∀ j, specShear q x [] j = 0 := by
    intro j
    unfold specShear specReaction specDistIntegral pointCumulativeAt
    rw [trapzSum_zero _ _ _ hzero, trapzSum_zero _ _ _ hzero]
    simp
  have hmom0 : ∀ j, specMoment q x [] j = 0 := by
    intro j
    unfold specMoment specM0
    rw [trapzSum_zero _ _ _ (fun k => by rw [hzero k]; ring),
      trapzSum_zero _ _ _ (fun k => hshear0 k)]
    simp
  have hmlen : (shear_moment x q []).2.length = x.length :=
    shear_moment_snd_length x q [] hq hx
  have hmget : ∀ k, (shear_moment x q []).2.getD k 0 = 0 := by
    intro k
    rcases lt_or_le k x.length with hk | hk
    · rw [shear_moment_snd_getD x q [] hq k hk]
      exact hmom0 k
    · exact getD_of_length_le _ _ (by omega)
  have hcurv0 : ∀ k, specCurvature (shear_moment x q []).2 youngs inertia k = 0 := by
    intro k
    unfold specCurvature
    rw [hmget k, zero_div]
  obtain ⟨h1, h2, h3⟩ :=
    integrate_deflection_spec x (shear_moment x q []).2 youngs inertia hmlen i hi
  refine ⟨?_, hmget i, ?_, ?_⟩
  · rw [shear_moment_fst_getD x q [] hq i hi]
    exact hshear0 i
  · rw [h2]
    exact specSlope_zero x _ hcurv0 i
  · rw [h3]
    exact specDefl_zero x _ hcurv0 i

/-- Witness for C4: a two-node mesh with the zero load profile. -/
theorem claim_C4_witness :
    (shear_moment [0, 1] [0, 0] []).1.getD 1 0 = 0
      ∧ (shear_moment [0, 1] [0, 0] []).2.getD 1 0 = 0
      ∧ (integrate_deflection [0, 1] (shear_moment [0, 1] [0, 0] []).2 2 3).2.1.getD 1 0 = 0
      ∧ (integrate_deflection [0, 1] (shear_moment [0, 1] [0, 0] []).2 2 3).2.2.getD 1 0
          = 0 :=
  claim_C4 [0, 1] [0, 0] 2 3 1 rfl
    (by
      intro k
      match k with
      | 0 => rfl
      | 1 => rfl
      | (n + 2) => exact getD_of_length_le _ _ (by simp))
    (by decide)

/-- C5: superposition — solving the pointwise sum of two distributed loads
together with the concatenation of two point-load lists yields shear, moment
and deflection equal to the pointwise sums of the separate solves. -/
theorem claim_C5 (x qA qB : List ℚ) (pA pB : List PointLoad)
    (youngs inertia : ℚ) (i : ℕ)
    (hA : qA.length = x.length) (hB : qB.length = x.length)
    (hi : i < x.length) :
    (shear_moment x (List.zipWith (· + ·) qA qB) (pA ++ pB)).1.getD i 0
        = (shear_moment x qA pA).1.getD i 0 + (shear_moment x qB pB).1.getD i 0
      ∧ (shear_moment x (List.zipWith (· + ·) qA qB) (pA ++ pB)).2.getD i 0
        = (shear_moment x qA pA).2.getD i 0 + (shear_moment x qB pB).2.getD i 0
      ∧ (integrate_deflection x
            (shear_moment x (List.zipWith (· + ·) qA qB) (pA ++ pB)).2
            youngs inertia).2.2.getD i 0
        = (integrate_deflection x (shear_moment x qA pA).2 youngs inertia).2.2.getD i 0
          + (integrate_deflection x (shear_moment x qB pB).2 youngs inertia).2.2.getD
              i 0 := by
  have hx : 0 < x.length := by omega
  have hAB : (List.zipWith (· + ·) qA qB).length = x.length := by
    simp [List.length_zipWith]
    omega
  have hq : qA.length = qB.length := by omega
  have hmAB : (shear_moment x (List.zipWith (· + ·) qA qB) (pA ++ pB)).2.length
      = x.length := shear_moment_snd_length x _ _ hAB hx
  have hmA : (shear_moment x qA pA).2.length = x.length :=
    shear_moment_snd_length x qA pA hA hx
  have hmB : (shear_moment x qB pB).2.length = x.length :=
    shear_moment_snd_length x qB pB hB hx
  refine ⟨?_, ?_, ?_⟩
  · rw [shear_moment_fst_getD x _ _ hAB i hi, shear_moment_fst_getD x qA pA hA i hi,
      shear_moment_fst_getD x qB pB hB i hi]
    exact specShear_add qA qB x pA pB hq i
  · rw [shear_moment_snd_getD x _ _ hAB i hi, shear_moment_snd_getD x qA pA hA i hi,
      shear_moment_snd_getD x qB pB hB i hi]
    exact specMoment_add qA qB x pA pB hq i
  · have hcadd : ∀ k,
        specCurvature (shear_moment x (List.zipWith (· + ·) qA qB) (pA ++ pB)).2
            youngs inertia k
          = specCurvature (shear_moment x qA pA).2 youngs inertia k
            + specCurvature (shear_moment x qB pB).2 youngs inertia k := by
      intro k
      unfold specCurvature
      rcases lt_or_le k x.length with hk | hk
      · rw [shear_moment_snd_getD x _ _ hAB k hk,
          shear_moment_snd_getD x qA pA hA k hk,
          shear_moment_snd_getD x qB pB hB k hk,
          specMoment_add qA qB x pA pB hq k, add_div]
      · rw [getD_of_length_le _ _ (by omega), getD_of_length_le _ _ (by omega),
          getD_of_length_le _ _ (by omega)]
        norm_num
    obtain ⟨hc1, hs1, hd1⟩ := integrate_deflection_spec x
      (shear_moment x (List.zipWith (· + ·) qA qB) (pA ++ pB)).2 youngs inertia hmAB i hi
    obtain ⟨hc2, hs2, hd2⟩ := integrate_deflection_spec x
      (shear_moment x qA pA).2 youngs inertia hmA i hi
    obtain ⟨hc3, hs3, hd3⟩ := integrate_deflection_spec x
      (shear_moment x qB pB).2 youngs inertia hmB i hi
    rw [hd1, hd2, hd3]
    exact specDefl_add x _ _ _ hcadd i

/-- Witness for C5: three-node mesh, two uniform loads, one point load each. -/
theorem claim_C5_witness :
    (shear_moment [0, 1, 2] (List.zipWith (· + ·) [1, 1, 1] [2, 2, 2])
        ([⟨1, 1, "A"⟩] ++ [⟨2, 2, "B"⟩])).1.getD 1 0
        = (shear_moment [0, 1, 2] [1, 1, 1] [⟨1, 1, "A"⟩]).1.getD 1 0
          + (shear_moment [0, 1, 2] [2, 2, 2] [⟨2, 2, "B"⟩]).1.getD 1 0
      ∧ (shear_moment [0, 1, 2] (List.zipWith (· + ·) [1, 1, 1] [2, 2, 2])
          ([⟨1, 1, "A"⟩] ++ [⟨2, 2, "B"⟩])).2.getD 1 0
        = (shear_moment [0, 1, 2] [1, 1, 1] [⟨1, 1, "A"⟩]).2.getD 1 0
          + (shear_moment [0, 1, 2] [2, 2, 2] [⟨2, 2, "B"⟩]).2.getD 1 0
      ∧ (integrate_deflection [0, 1, 2]
            (shear_moment [0, 1, 2] (List.zipWith (· + ·) [1, 1, 1] [2, 2, 2])
              ([⟨1, 1, "A"⟩] ++ [⟨2, 2, "B"⟩])).2 1 1).2.2.getD 1 0
        = (integrate_deflection [0, 1, 2]
              (shear_moment [0, 1, 2] [1, 1, 1] [⟨1, 1, "A"⟩]).2 1 1).2.2.getD 1 0
          + (integrate_deflection [0, 1, 2]
              (shear_moment [0, 1, 2] [2, 2, 2] [⟨2, 2, "B"⟩]).2 1 1).2.2.getD 1 0 :=
  claim_C5 [0, 1, 2] [1, 1, 1] [2, 2, 2] [⟨1, 1, "A"⟩] [⟨2, 2, "B"⟩] 1 1 1
    rfl rfl (by decide)

/-- C6: for a positive section height and inertia, `stress_field` builds a
height grid of exactly `points` equally spaced samples, symmetric about zero
and spanning `[-h/2, h/2]`, returned in millimetres, and a stress matrix
whose entry at `(i, j)` is `y_i · M(x_j) / I` divided by `10^6` (Pa → MPa). -/
theorem claim_C6 (moment : List ℚ) (section_height inertia : ℚ)
    (points i j : ℕ)
    (hh : 0 < section_height) (hI : 0 < inertia) (hp : 2 ≤ points)
    (hi : i < points) (hj : j < moment.length) :
    (stress_field moment section_height inertia points).1.length = points
      ∧ (stress_field moment section_height inertia points).2.length = points
      ∧ (stress_field moment section_height inertia points).1.getD i 0
          = grid_height section_height points i * 1000
      ∧ (stress_field moment section_height inertia points).1.getD i 0
          + (stress_field moment section_height inertia points).1.getD
              (points - 1 - i) 0 = 0
      ∧ (stress_field moment section_height inertia points).1.getD 0 0
          = -(section_height / 2) * 1000
      ∧ (stress_field moment section_height inertia points).1.getD (points - 1) 0
          = section_height / 2 * 1000
      ∧ ((stress_field moment section_height inertia points).2.getD i []).length
          = moment.length
      ∧ ((stress_field moment section_height inertia points).2.getD i []).getD j 0
          = grid_height section_height points i * moment.getD j 0
            / inertia / 1000000 := by
  have hcond : ¬(section_height ≤ 0 ∨ inertia ≤ 0) := by
    push_neg
    constructor <;> linarith
  have hfst : (stress_field moment section_height inertia points).1
      = (np_linspace (-(section_height / 2)) (section_height / 2) points).map
        (fun v => v * 1000) := by
    rw [stress_field, if_neg hcond]
  have hsnd : (stress_field moment section_height inertia points).2
      = ((np_linspace (-(section_height / 2)) (section_height / 2) points).map
          (fun yi => moment.map (fun m => yi * m / inertia))).map
        (fun row => row.map (fun s => s / 1000000)) := by
    rw [stress_field, if_neg hcond]
  have hylen : (np_linspace (-(section_height / 2)) (section_height / 2)
      points).length = points := np_linspace_length _ _ points
  have hyget : ∀ t, t < points →
      (stress_field moment section_height inertia points).1.getD t 0
        = grid_height section_height points t * 1000 := by
    intro t ht
    rw [hfst, getD_map_of_zero (fun v => v * 1000) (by simp) _ t,
      linspace_grid_height section_height points t hp ht]
  have hstep1 : (stress_field moment section_height inertia points).2.getD i []
      = (((np_linspace (-(section_height / 2)) (section_height / 2) points).map
          (fun yi => moment.map (fun m => yi * m / inertia))).getD i []).map
        (fun s => s / 1000000) := by
    rw [hsnd]
    exact getD_map_general (fun row => List.map (fun s => s / 1000000) row)
      ((np_linspace (-(section_height / 2)) (section_height / 2) points).map
        (fun yi => moment.map (fun m => yi * m / inertia))) i [] []
      (by rw [List.length_map, hylen]; exact hi)
  have hstep2 : ((np_linspace (-(section_height / 2)) (section_height / 2)
        points).map (fun yi => moment.map (fun m => yi * m / inertia))).getD i []
      = moment.map (fun m =>
          (np_linspace (-(section_height / 2)) (section_height / 2)
            points).getD i 0 * m / inertia) :=
    getD_map_general (fun yi => moment.map (fun m => yi * m / inertia))
      (np_linspace (-(section_height / 2)) (section_height / 2) points) i 0 []
      (by rw [hylen]; exact hi)
  have hrow : (stress_field moment section_height inertia points).2.getD i []
      = (moment.map (fun m =>
          (np_linspace (-(section_height / 2)) (section_height / 2)
            points).getD i 0 * m / inertia)).map (fun s => s / 1000000) := by
    rw [hstep1, hstep2]
  refine ⟨?_, ?_, hyget i hi, ?_, ?_, ?_, ?_, ?_⟩
  · rw [hfst, List.length_map, hylen]
  · rw [hsnd, List.length_map, List.length_map, hylen]
  · rw [hyget i hi, hyget (points - 1 - i) (by omega)]
    have hsymm := grid_height_symm section_height points i hp hi
    linarith
  · rw [hyget 0 (by omega), grid_height_zero]
  · rw [hyget (points - 1) (by omega), grid_height_last section_height points hp]
  · rw [hrow, List.length_map, List.length_map]
  · rw [hrow,
      getD_map_of_zero (fun s => s / 1000000) (by simp) _ j,
      getD_map_of_zero (fun m =>
        (np_linspace (-(section_height / 2)) (section_height / 2)
          points).getD i 0 * m / inertia) (by simp) moment j,
      linspace_grid_height section_height points i hp hi]

/-- Witness for C6: a one-sample moment field, unit section data, 120 grid
points. -/
theorem claim_C6_witness :
    (stress_field [7] 1 1 120).1.length = 120
      ∧ (stress_field [7] 1 1 120).2.length = 120
      ∧ (stress_field [7] 1 1 120).1.getD 1 0 = grid_height 1 120 1 * 1000
      ∧ (stress_field [7] 1 1 120).1.getD 1 0
          + (stress_field [7] 1 1 120).1.getD (120 - 1 - 1) 0 = 0
      ∧ (stress_field [7] 1 1 120).1.getD 0 0 = -((1 : ℚ) / 2) * 1000
      ∧ (stress_field [7] 1 1 120).1.getD (120 - 1) 0 = (1 : ℚ) / 2 * 1000
      ∧ ((stress_field [7] 1 1 120).2.getD 1 []).length = ([7] : List ℚ).length
      ∧ ((stress_field [7] 1 1 120).2.getD 1 []).getD 0 0
          = grid_height 1 120 1 * ([7] : List ℚ).getD 0 0 / 1 / 1000000 :=
  claim_C6 [7] 1 1 120 1 0 (by norm_num) (by norm_num) (by norm_num)
    (by norm_num) (by norm_num)

/-- C7: for a non-positive section height or inertia, `stress_field` returns
the single-element height grid `[0]` and a single all-zero stress row of the
moment array's length — it never divides and never fails. -/
theorem claim_C7 (moment : List ℚ) (section_height inertia : ℚ) (points : ℕ)
    (hdeg : section_height ≤ 0 ∨ inertia ≤ 0) :
    stress_field moment section_height inertia points
      = ([0], [List.replicate moment.length 0]) := by
  rw [stress_field, if_pos hdeg, map_const_eq_replicate]

/-- Witness for C7: zero section height. -/
theorem claim_C7_witness :
    stress_field [3, 4] 0 1 120 = ([0], [List.replicate ([3, 4] : List ℚ).length 0]) :=
  claim_C7 [3, 4] 0 1 120 (by norm_num)

/-- C8 counterexample: `discretize` does not fail fast on invalid input — at
`length = -1 ≤ 0` and `nodeCount = 1 < 2` it still returns the mesh `[0]`. -/
theorem claim_C8_counterexample :
    discretize (-1) 1 = [0] ∧ (-1 : ℚ) ≤ 0 ∧ (1 : ℕ) < 2 := by
  refine ⟨?_, by norm_num, by norm_num⟩
  rw [discretize, np_linspace]
  norm_num

/-- C8 (amended): `build_section` fails with the descriptive error
`未知截面类型` for every unknown section-shape tag, but `discretize` performs
no validation: for any length and node count — including `length ≤ 0` or
`nodeCount < 2` — it returns the `np.linspace` mesh of exactly `nodeCount`
samples instead of raising. -/
theorem claim_C8 (shape : String) (dims : String → ℚ) (len : ℚ) (nodes : ℕ)
    (hshape : shape ∉ ["工字钢", "矩形钢", "方钢管", "圆钢"]) :
    build_section shape dims = Except.error "未知截面类型"
      ∧ (discretize len nodes).length = nodes := by
  constructor
  · simp only [List.mem_cons, List.not_mem_nil, or_false] at hshape
    push_neg at hshape
    obtain ⟨h1, h2, h3, h4⟩ := hshape
    simp [build_section, h1, h2, h3, h4]
  · rw [discretize]
    exact np_linspace_length 0 len nodes

/-- Witness for C8: an unrecognised shape tag and the degenerate mesh request
`length = -1`, `nodeCount = 1`. -/
theorem claim_C8_witness :
    build_section "unknown" (fun _ => 0) = Except.error "未知截面类型"
      ∧ (discretize (-1) 1).length = 1 :=
  claim_C8 "unknown" (fun _ => 0) (-1) 1 (by decide)

/-- C9 counterexample: adding the point load `P = 1` at mesh node `x = 1` of
the mesh `[0, 1, 2]` (zero distributed load) disturbs the shear value at
node 0 as well — it changes from 0 to 1 — because the reaction changes, so
values away from the discontinuity are not all preserved. -/
theorem claim_C9_counterexample :
    (shear_moment [0, 1, 2] [0, 0, 0] [⟨1, 1, "P"⟩]).1.getD 0 0
      ≠ (shear_moment [0, 1, 2] [0, 0, 0] []).1.getD 0 0 := by
  have h1 : (shear_moment [0, 1, 2] [0, 0, 0] [⟨1, 1, "P"⟩]).1.getD 0 0
      = specShear [0, 0, 0] [0, 1, 2] [⟨1, 1, "P"⟩] 0 :=
    shear_moment_fst_getD [0, 1, 2] [0, 0, 0] [⟨1, 1, "P"⟩] rfl 0 (by norm_num)
  have h2 : (shear_moment [0, 1, 2] [0, 0, 0] []).1.getD 0 0
      = specShear [0, 0, 0] [0, 1, 2] [] 0 :=
    shear_moment_fst_getD [0, 1, 2] [0, 0, 0] [] rfl 0 (by norm_num)
  rw [h1, h2]
  unfold specShear specReaction specDistIntegral pointCumulativeAt trapzSum
  norm_num [Finset.sum_range_succ]

/-- C9 (amended): adding one point load of magnitude `P` at a position equal
to mesh node `j` of a strictly increasing mesh changes the shear array by
exactly `P` at every node left of `j` (the reaction grows by `P`) and by 0 at
node `j` and to its right (the load is counted at the node itself via the `≥`
comparison); in particular the jump across node `j` changes by exactly `P`. -/
theorem claim_C9 (x q : List ℚ) (loads : List PointLoad) (P : ℚ) (lbl : String)
    (j i : ℕ)
    (hq : q.length = x.length) (hj : j < x.length)
    (hmono : ∀ k, k < x.length - 1 → x.getD k 0 < x.getD (k + 1) 0)
    (hi : i < x.length) :
    (shear_moment x q (loads ++ [⟨P, x.getD j 0, lbl⟩])).1.getD i 0
      = (shear_moment x q loads).1.getD i 0 + (if i < j then P else 0) := by
  have hsm := getD_strictMono x hmono
  rw [shear_moment_fst_getD x q _ hq i hi, shear_moment_fst_getD x q loads hq i hi]
  unfold specShear specReaction
  rw [pointCumulativeAt_append, List.map_append, List.sum_append]
  have hmag : (([⟨P, x.getD j 0, lbl⟩] : List PointLoad).map
      (fun l => l.magnitude)).sum = P := by simp
  have hsingle : pointCumulativeAt [⟨P, x.getD j 0, lbl⟩] (x.getD i 0)
      = if j ≤ i then P else 0 := by
    unfold pointCumulativeAt
    simp only [List.map_cons, List.map_nil, List.sum_cons, List.sum_nil, add_zero]
    by_cases hij : j ≤ i
    · rw [if_pos hij]
      rcases Nat.eq_or_lt_of_le hij with he | hl
      · rw [he, if_pos le_rfl]
      · rw [if_pos (le_of_lt (hsm j i hl hi))]
    · rw [if_neg hij, if_neg (not_le.mpr (hsm i j (by omega) hj))]
  rw [hmag, hsingle]
  by_cases hij : i < j
  · rw [if_pos hij, if_neg (by omega)]
    ring
  · rw [if_neg hij, if_pos (by omega)]
    ring

/-- Witness for C9 (amended): load `P = 5` at node `j = 1` of `[0, 1, 2]`
shifts the shear at node 0 by exactly `P`. -/
theorem claim_C9_witness :
    (shear_moment [0, 1, 2] [0, 0, 0]
        ([] ++ [⟨5, ([0, 1, 2] : List ℚ).getD 1 0, "P"⟩])).1.getD 0 0
      = (shear_moment [0, 1, 2] [0, 0, 0] []).1.getD 0 0
        + (if (0 : ℕ) < 1 then (5 : ℚ) else 0) :=
  claim_C9 [0, 1, 2] [0, 0, 0] [] 5 "P" 1 0 rfl (by norm_num)
    (by intro k hk; simp at hk; interval_cases k <;> norm_num) (by norm_num)

/-- C10: when every point-load position lies at or before the last mesh node,
the shear returned by `shear_moment` at the last node is exactly zero: the
reaction equals the total distributed integral plus the total point load, and
the cumulative point sum at the last node counts every load. -/
theorem claim_C10 (x q : List ℚ) (loads : List PointLoad)
    (hx : 0 < x.length) (hq : q.length = x.length)
    (hpos : ∀ l ∈ loads, l.position ≤ x.getD (x.length - 1) 0) :
    (shear_moment x q loads).1.getD (x.length - 1) 0 = 0 := by
  rw [shear_moment_fst_getD x q loads hq _ (by omega)]
  unfold specShear specReaction
  have hpc : pointCumulativeAt loads (x.getD (x.length - 1) 0)
      = (loads.map (fun l => l.magnitude)).sum := by
    unfold pointCumulativeAt
    congr 1
    exact List.map_congr_left (fun l hl => by rw [if_pos (hpos l hl)])
  rw [hpc]
  ring

/-- Witness for C10: a two-node mesh, uniform load, one interior point load. -/
theorem claim_C10_witness :
    (shear_moment [0, 2] [3, 3] [⟨4, 1, "P"⟩]).1.getD
        (([0, 2] : List ℚ).length - 1) 0 = 0 :=
  claim_C10 [0, 2] [3, 3] [⟨4, 1, "P"⟩] (by norm_num) rfl
    (by
      intro l hl
      simp at hl
      subst hl
      norm_num)

end Mechanik
